import Mathlib

/-!
Verification development for the pino-whisper backend.

The repository contains two drafts of the same service:
* an in-memory variant (server.js) with a floating-point balance, rounded to
  three decimal places after every mutation, and
* a Postgres-backed variant (the unnamed source file) with an integer balance.

Both are embedded here.  JavaScript numbers are modelled as exact rationals;
the expression Number(x.toFixed(3)) is modelled as rounding to the nearest
multiple of 1/1000 with ties resolved upward, matching the ECMA definition of
toFixed on the exact value.  The SHA-256 digest from the Node crypto module is
an external collaborator and is threaded through as an arbitrary function
argument, since no claim depends on actual digest values.  Timestamps are
modelled as natural-number ticks and freshly generated UUIDs as explicitly
supplied strings.
-/

set_option autoImplicit false

deriving instance DecidableEq for Except

namespace PW

/-! JavaScript-flavoured helpers, shared by both variants. -/

/-- Models the JavaScript idiom s or-else d, where the empty string is falsy. -/
def jsOr (s d : String) : String := if s = "" then d else s

/-- Models s.slice(0, n) on a JavaScript string. -/
def jsSlice (s : String) (n : Nat) : String := String.mk (s.data.take n)

/-- Models s.slice(a, b) on a JavaScript string. -/
def jsSliceFromTo (s : String) (a b : Nat) : String :=
  String.mk ((s.data.drop a).take (b - a))

/-- Models s.padEnd(n, "0"). -/
def jsPadEndZero (s : String) (n : Nat) : String :=
  s ++ String.mk (List.replicate (n - s.data.length) '0')

/-- Character-list core of jsTrim: drops whitespace at both ends. -/
def trimChars (l : List Char) : List Char :=
  ((l.dropWhile Char.isWhitespace).reverse.dropWhile Char.isWhitespace).reverse

/-- Models s.trim(): strips leading and trailing whitespace. -/
def jsTrim (s : String) : String := String.mk (trimChars s.data)

/-- Models s.toUpperCase() on the hex material used by the addresses. -/
def jsToUpper (s : String) : String := String.mk (s.data.map Char.toUpper)

/-- Models String(n) for the numeric wall-post ids: auxiliary digit list with
explicit fuel so that it evaluates by reduction. -/
def natDigits : Nat → Nat → List Char
  | 0, _ => []
  | _ + 1, 0 => []
  | fuel + 1, n => natDigits fuel (n / 10) ++ [Char.ofNat (48 + n % 10)]

/-- Models String(n) for a natural number n. -/
def natToString (n : Nat) : String :=
  if n = 0 then "0" else String.mk (natDigits (n + 1) n)

/-- Models parseInt applied to a decimal-notation number: truncation toward
zero.  Rat.floor and its mirror image are used rather than the floor of the
FloorRing instance so that the function evaluates by reduction. -/
def jsTrunc (q : ℚ) : ℤ := if 0 ≤ q then Rat.floor q else -(Rat.floor (-q))

/-- Models Number(x.toFixed(3)): rounding to the nearest multiple of 1/1000,
ties upward (the ECMA rule picks the larger candidate). -/
def round3 (q : ℚ) : ℚ := (Rat.floor (q * 1000 + 1/2) : ℚ) / 1000

/-- Word splitter of wordsAux: accumulates the current token (reversed). -/
def wordsAux (cur : List Char) : List Char → List String
  | [] => if cur = [] then [] else [String.mk cur.reverse]
  | c :: cs =>
    if c.isWhitespace then
      if cur = [] then wordsAux [] cs
      else String.mk cur.reverse :: wordsAux [] cs
    else wordsAux (c :: cur) cs

/-- Models s.split on runs of whitespace with empty tokens discarded, as the
regex split used by the source (which yields no empty tokens on trimmed
input; callers either trim first or filter out empty tokens, so both variants
coincide with this). -/
def splitWords (s : String) : List String := wordsAux [] s.data

/-- Replaces the first list element satisfying p by a; models an in-place
update of the record found by a lookup (Map.set on an existing key, or a SQL
update keyed by a unique column). -/
def replaceFirst {α : Type} (p : α → Bool) (a : α) : List α → List α
  | [] => []
  | x :: xs => if p x then a :: xs else x :: replaceFirst p a xs

/-- Insertion step of a stable sort by a numeric key, descending. -/
def insertDesc {α : Type} (key : α → Nat) (a : α) : List α → List α
  | [] => [a]
  | x :: xs => if key a ≤ key x then x :: insertDesc key a xs else a :: x :: xs

/-- Stable sort by a numeric key, descending: models the sort by
creation time used by both wall listings. -/
def sortDesc {α : Type} (key : α → Nat) : List α → List α
  | [] => []
  | x :: xs => insertDesc key x (sortDesc key xs)

/-! In-memory variant (server.js): MoonWish wallet with a float balance. -/

/-- Wallet record of the in-memory variant.  The map key is the mnemonic
hash, which the source also uses as the id field; the raw mnemonic is never
stored. -/
structure MemWallet where
  id : String
  address : String
  nickname : String
  balance : ℚ
  createdAt : Nat
  updatedAt : Nat
deriving DecidableEq

/-- Error outcomes of the in-memory routes (HTTP 400/404 responses). -/
inductive MemErr where
  | invalidPayload
  | notFound
  | insufficient
  | emptyText
deriving DecidableEq

/-- START_BALANCE constant: starting MoonWish Coins for a new wallet. -/
def START_BALANCE : ℚ := 1

/-- hashMnemonic: sha256 digest (hex) of the mnemonic; the digest function is
an external collaborator passed in as sha. -/
def hashMnemonic (sha : String → String) (mnemonic : String) : String :=
  sha mnemonic

/-- deriveAddressFromHash: pretty MWC-XXXX-XXXX-XXXX-XXXX address from the
hex digest. -/
def deriveAddressFromHash (hashHex : String) : String :=
  let h := jsPadEndZero (jsToUpper (jsSlice hashHex 16)) 16
  "MWC-" ++ jsSliceFromTo h 0 4 ++ "-" ++ jsSliceFromTo h 4 8 ++ "-" ++
    jsSliceFromTo h 8 12 ++ "-" ++ jsSliceFromTo h 12 16

/-- getOrCreateWallet from server.js.  Returns none when the trimmed mnemonic
is empty (the route then answers 400), otherwise the returned wallet together
with the updated store.  Absent body fields are modelled as the empty
string. -/
def getOrCreateWallet (sha : String → String) (st : List MemWallet)
    (nickname mnemonic : String) (now : Nat) :
    Option (MemWallet × List MemWallet) :=
  let nick := jsSlice (jsOr nickname "Guest") 24
  let mnRaw := jsTrim mnemonic
  if mnRaw = "" then none else
  let key := hashMnemonic sha mnRaw
  match st.find? (fun w => w.id == key) with
  | none =>
    let w : MemWallet :=
      { id := key, address := deriveAddressFromHash key, nickname := nick,
        balance := START_BALANCE, createdAt := now, updatedAt := now }
    some (w, st ++ [w])
  | some w =>
    let w2 : MemWallet :=
      { w with
        nickname := if nick ≠ "" ∧ nick ≠ w.nickname then nick else w.nickname,
        updatedAt := now }
    some (w2, replaceFirst (fun v => v.id == key) w2 st)

/-- POST /api/wallet/earn.  The amount is a JSON value: some q for a finite
number, none for a missing, non-numeric or non-finite value.  On success the
target balance becomes Number((balance + amount).toFixed(3)); errors leave
the store untouched (the route returns before mutating). -/
def memEarn (st : List MemWallet) (address : String) (amount : Option ℚ)
    (now : Nat) : Except MemErr (MemWallet × List MemWallet) :=
  if address = "" then .error .invalidPayload else
  match amount with
  | none => .error .invalidPayload
  | some a =>
    match st.find? (fun w => w.address == address) with
    | none => .error .notFound
    | some w =>
      let w2 : MemWallet :=
        { w with balance := round3 (w.balance + a), updatedAt := now }
      .ok (w2, replaceFirst (fun v => v.address == address) w2 st)

/-- POST /api/wallet/spend.  Like memEarn but rejects the mutation with an
insufficient-balance error when balance < amount, before any write. -/
def memSpend (st : List MemWallet) (address : String) (amount : Option ℚ)
    (now : Nat) : Except MemErr (MemWallet × List MemWallet) :=
  if address = "" then .error .invalidPayload else
  match amount with
  | none => .error .invalidPayload
  | some a =>
    match st.find? (fun w => w.address == address) with
    | none => .error .notFound
    | some w =>
      if w.balance < a then .error .insufficient else
      let w2 : MemWallet :=
        { w with balance := round3 (w.balance - a), updatedAt := now }
      .ok (w2, replaceFirst (fun v => v.address == address) w2 st)

/-- Client-facing wallet summary of the in-memory variant. -/
structure MemPublicWallet where
  address : String
  nickname : String
  balance : ℚ
  createdAt : Nat
  updatedAt : Nat
deriving DecidableEq

/-- publicWallet from server.js: the summary every wallet route responds
with. -/
def publicWallet (w : MemWallet) : MemPublicWallet :=
  { address := w.address, nickname := w.nickname,
    balance := round3 w.balance, createdAt := w.createdAt,
    updatedAt := w.updatedAt }

/-- Field names of the object literal built by publicWallet, in source
order. -/
def memPublicWalletFields : List String :=
  ["address", "nickname", "balance", "createdAt", "updatedAt"]

/-! In-memory variant: whispers wall. -/

/-- Wall post of the in-memory variant. -/
structure MemPost where
  id : String
  text : String
  nick : String
  whenLabel : String
  createdAt : Nat
deriving DecidableEq

/-- In-memory wall store: the wallPosts array and the nextWallId counter. -/
structure MemWallState where
  posts : List MemPost
  nextWallId : Nat
deriving DecidableEq

/-- makeWhenLabel from server.js: currently always the fixed label. -/
def makeWhenLabel (_dateString : String) : String := "just now"

/-- POST /api/wall of the in-memory variant: trims text and nick, substitutes
the sentinel for a blank nick, rejects empty text, appends the new post. -/
def memPostWall (st : MemWallState) (text nick : String) (now : Nat) :
    Except MemErr (MemPost × MemWallState) :=
  let cleanText := jsTrim text
  let cleanNick := jsOr (jsTrim (jsOr nick "someone")) "someone"
  if cleanText = "" then .error .emptyText else
  let item : MemPost :=
    { id := natToString st.nextWallId, text := cleanText, nick := cleanNick,
      whenLabel := makeWhenLabel "", createdAt := now }
  .ok (item, { posts := st.posts ++ [item], nextWallId := st.nextWallId + 1 })

/-- GET /api/wall of the in-memory variant: a copy of all posts sorted newest
first.  There is no limit in this variant. -/
def memWallList (st : MemWallState) : List MemPost :=
  sortDesc (fun p => p.createdAt) st.posts

/-! Postgres-backed variant (the unnamed source file): integer balance.
The wallets table is modelled as a list of rows in insertion order; the
address column carries a unique constraint (implied by ON CONFLICT), the id
column is the primary key. -/

/-- Row of the wallets table. -/
structure DbWallet where
  id : String
  address : String
  words : String
  walletAlias : String
  balance : ℤ
  createdAt : Nat
deriving DecidableEq

/-- Error outcomes of the DB-backed routes. -/
inductive DbErr where
  | badPayload
  | need12Words
  | badAmount
  | notFound
  | insufficient
  | emptyText
  | storeFailure
deriving DecidableEq

/-- addrFromPhrase: PW- followed by the first ten hex digits, uppercased, of
the sha256 digest of the phrase concatenated with the fixed version tag. -/
def addrFromPhrase (sha : String → String) (phrase : String) : String :=
  "PW-" ++ jsToUpper (jsSlice (sha (phrase ++ "|v1")) 10)

/-- POST /api/wallet of the DB variant: validates the nickname (trimmed,
capped at 64) and a mnemonic of at least 12 whitespace-separated words, then
upserts on the address: an existing row keeps its id and only its alias is
replaced, otherwise a fresh row with balance 0 is inserted. -/
def walletUpsert (sha : String → String) (st : List DbWallet)
    (nickname mnemonic : String) (newId : String) (now : Nat) :
    Except DbErr (DbWallet × List DbWallet) :=
  let nick := jsSlice (jsTrim nickname) 64
  let mn := jsTrim mnemonic
  if nick = "" ∨ (splitWords mn).length < 12 then .error .badPayload else
  let address := addrFromPhrase sha mn
  match st.find? (fun w => w.address == address) with
  | some w =>
    let w2 : DbWallet := { w with walletAlias := nick }
    .ok (w2, replaceFirst (fun v => v.address == address) w2 st)
  | none =>
    let w : DbWallet :=
      { id := newId, address := address, words := mn, walletAlias := nick,
        balance := 0, createdAt := now }
    .ok (w, st ++ [w])

/-- POST /api/wallet/create: inserts a wallet for freshly generated words
(the random 12-word draw is an input here) and returns the row together with
the words, the only response that ever carries them.  A plain INSERT into a
table whose address column is unique fails on a duplicate address, which the
route reports as a 500. -/
def walletCreate (sha : String → String) (st : List DbWallet)
    (aliasInput : String) (genWords : List String) (newId : String)
    (now : Nat) : Except DbErr ((DbWallet × List String) × List DbWallet) :=
  let al := jsSlice (jsOr aliasInput "") 64
  let phrase := String.intercalate " " genWords
  let address := addrFromPhrase sha phrase
  if st.any (fun w => w.address == address) then .error .storeFailure else
  let w : DbWallet :=
    { id := newId, address := address, words := phrase, walletAlias := al,
      balance := 0, createdAt := now }
  .ok ((w, genWords), st ++ [w])

/-- POST /api/wallet/import: requires exactly 12 words, looks the phrase up
by exact match on the words column, returns the existing row unchanged when
found and otherwise inserts a fresh row with empty alias and balance 0.
The wallets table carries a unique constraint on the address column (implied
by the ON CONFLICT clause of the upsert), so a plain INSERT whose derived
address collides with an existing row fails; the route catches the query
error and answers 500 with no row created, modelled as storeFailure exactly
as in walletCreate. -/
def importByWords (sha : String → String) (st : List DbWallet)
    (wordsInput : String) (newId : String) (now : Nat) :
    Except DbErr (DbWallet × List DbWallet) :=
  let phrase := jsTrim wordsInput
  if phrase = "" ∨ (splitWords phrase).length ≠ 12 then .error .need12Words
  else
  match st.find? (fun w => w.words == phrase) with
  | some w => .ok (w, st)
  | none =>
    if st.any (fun w => w.address == addrFromPhrase sha phrase) then
      .error .storeFailure
    else
      let w : DbWallet :=
        { id := newId, address := addrFromPhrase sha phrase, words := phrase,
          walletAlias := "", balance := 0, createdAt := now }
      .ok (w, st ++ [w])

/-- GET /api/wallet/:id of the DB variant. -/
def dbGetById (st : List DbWallet) (id : String) : Except DbErr DbWallet :=
  match st.find? (fun w => w.id == id) with
  | none => .error .notFound
  | some w => .ok w

/-- Amount preprocessing shared by award and spend:
Math.max(0, parseInt(body.amount or 0, 10)).  A missing or non-numeric
amount yields 0 and is then rejected by the zero check. -/
def jsParseAmount (amount : Option ℚ) : ℤ :=
  max 0 (jsTrunc (amount.getD 0))

/-- POST /api/wallet/:id/award: rejects when the parsed amount is zero,
otherwise adds it to the balance of the row with the given id. -/
def dbAward (st : List DbWallet) (id : String) (amount : Option ℚ) :
    Except DbErr (DbWallet × List DbWallet) :=
  let amt := jsParseAmount amount
  if amt = 0 then .error .badAmount else
  match st.find? (fun w => w.id == id) with
  | none => .error .notFound
  | some w =>
    let w2 : DbWallet := { w with balance := w.balance + amt }
    .ok (w2, replaceFirst (fun v => v.id == id) w2 st)

/-- POST /api/wallet/:id/spend: rejects when the parsed amount is zero,
reads the balance, rejects with an insufficient-funds error when
balance < amount, otherwise subtracts. -/
def dbSpend (st : List DbWallet) (id : String) (amount : Option ℚ) :
    Except DbErr (DbWallet × List DbWallet) :=
  let amt := jsParseAmount amount
  if amt = 0 then .error .badAmount else
  match st.find? (fun w => w.id == id) with
  | none => .error .notFound
  | some w =>
    if w.balance < amt then .error .insufficient else
    let w2 : DbWallet := { w with balance := w.balance - amt }
    .ok (w2, replaceFirst (fun v => v.id == id) w2 st)

/-- Column list of the RETURNING clause shared by every wallet query of the
DB variant (upsert, create, import, get, award, spend). -/
def dbWalletReturningFields : List String :=
  ["id", "address", "alias", "balance", "created_at"]

/-- Field names of the create response, which spreads the returned row and
appends the generated words. -/
def dbCreateResponseFields : List String :=
  dbWalletReturningFields ++ ["words"]

/-- Modelled from the spec: the wallet record shape the specification says
every client response has, namely id, address, alias-or-nickname, balance
and the creation timestamp. -/
def specWalletRecordFields : List String :=
  ["id", "address", "alias", "balance", "created_at"]

/-- Modelled from the spec: the same claimed shape with the in-memory
variant naming, where the display label field is called nickname. -/
def specWalletRecordFieldsMem : List String :=
  ["id", "address", "nickname", "balance", "createdAt"]

/-! DB variant: whispers wall. -/

/-- Row of the whispers table. -/
structure DbPost where
  id : String
  text : String
  nick : String
  createdAt : Nat
  likes : Nat
deriving DecidableEq

/-- Item of the GET /api/wall response of the DB variant. -/
structure WallItem where
  id : String
  text : String
  nick : String
  whenLabel : String
deriving DecidableEq

/-- POST /api/wall of the DB variant: trims and caps text at 500 and nick at
40 with the sentinel for a blank nick, rejects empty text, inserts the row
with zero likes. -/
def dbPostWall (st : List DbPost) (textInput nickInput : String)
    (newId : String) (now : Nat) : Except DbErr (DbPost × List DbPost) :=
  let rawText := jsTrim textInput
  let rawNick := jsTrim nickInput
  let text := jsSlice rawText 500
  let nick := jsSlice (jsOr rawNick "someone") 40
  if text = "" then .error .emptyText else
  let p : DbPost :=
    { id := newId, text := text, nick := nick, createdAt := now, likes := 0 }
  .ok (p, st ++ [p])

/-- GET /api/wall of the DB variant: newest first, LIMIT 50, mapped to the
response items with the sentinel fallback on nick and the fixed label. -/
def dbWallList (st : List DbPost) : List WallItem :=
  ((sortDesc (fun p => p.createdAt) st).take 50).map
    (fun r =>
      { id := r.id, text := r.text, nick := jsOr r.nick "someone",
        whenLabel := "just now" })

/-! Ledger operation sequences over the DB variant, for the balance
invariant. -/

/-- One client-visible ledger operation of the DB variant, with all of its
request inputs. -/
inductive DbOp where
  | upsert (nickname mnemonic newId : String) (now : Nat)
  | create (aliasInput : String) (genWords : List String) (newId : String)
      (now : Nat)
  | importWords (wordsInput newId : String) (now : Nat)
  | award (id : String) (amount : Option ℚ)
  | spend (id : String) (amount : Option ℚ)

/-- State component of a route result: a failed operation leaves the store
untouched, exactly as the routes answer an error without writing. -/
def okState {E A S : Type} (st : S) : Except E (A × S) → S
  | .ok (_, st2) => st2
  | .error _ => st

/-- State reached after one operation. -/
def applyDbOp (sha : String → String) (st : List DbWallet) :
    DbOp → List DbWallet
  | .upsert n m i t => okState st (walletUpsert sha st n m i t)
  | .create a g i t => okState st (walletCreate sha st a g i t)
  | .importWords wi i t => okState st (importByWords sha st wi i t)
  | .award i a => okState st (dbAward st i a)
  | .spend i a => okState st (dbSpend st i a)

/-- State reached from the empty table after a sequence of ledger
operations. -/
def runDbOps (sha : String → String) (ops : List DbOp) : List DbWallet :=
  ops.foldl (applyDbOp sha) []

/-- Well-formedness of the in-memory wallet store: every stored wallet
carries the address derived from its id (the mnemonic hash it is keyed by).
This holds for every store the routes can build and is what makes the
derived address stable across separate calls and restarts. -/
def memWF (st : List MemWallet) : Prop :=
  ∀ w ∈ st, w.address = deriveAddressFromHash w.id

instance memWFDecidable (st : List MemWallet) : Decidable (memWF st) :=
  List.decidableBAll _ st

/-- Wall of the DB variant after sixty posts with strictly increasing
creation times. -/
def dbWall60 : List DbPost :=
  (List.range 60).foldl
    (fun st i =>
      match dbPostWall st "hello" "nick" (natToString i) i with
      | .ok (_, st2) => st2
      | .error _ => st) []

/-- Wall of the in-memory variant after sixty posts with strictly increasing
creation times. -/
def memWall60 : MemWallState :=
  (List.range 60).foldl
    (fun st i =>
      match memPostWall st "hello" "nick" i with
      | .ok (_, st2) => st2
      | .error _ => st)
    { posts := [], nextWallId := 1 }

/-! Helper lemmas: lists, strings, rounding. -/

theorem replaceFirst_length {α : Type} (p : α → Bool) (a : α) (l : List α) :
    (replaceFirst p a l).length = l.length := by
  induction l with
  | nil => rfl
  | cons x xs ih =>
    unfold replaceFirst
    split
    · rfl
    · simpa using ih

theorem mem_replaceFirst {α : Type} {p : α → Bool} {a x : α} {l : List α}
    (h : x ∈ replaceFirst p a l) : x = a ∨ x ∈ l := by
  induction l with
  | nil => simp [replaceFirst] at h
  | cons y ys ih =>
    unfold replaceFirst at h
    split at h
    · rcases List.mem_cons.mp h with h1 | h1
      · exact Or.inl h1
      · exact Or.inr (List.mem_cons_of_mem _ h1)
    · rcases List.mem_cons.mp h with h1 | h1
      · exact Or.inr (h1 ▸ List.mem_cons_self _ _)
      · rcases ih h1 with h2 | h2
        · exact Or.inl h2
        · exact Or.inr (List.mem_cons_of_mem _ h2)

theorem find?_replaceFirst {α : Type} {p : α → Bool} {a w : α} {l : List α}
    (h : l.find? p = some w) (ha : p a = true) :
    (replaceFirst p a l).find? p = some a := by
  induction l with
  | nil => simp at h
  | cons x xs ih =>
    unfold replaceFirst
    by_cases hx : p x
    · simp [hx, List.find?_cons, ha]
    · rw [List.find?_cons_of_neg _ hx] at h
      rw [if_neg hx, List.find?_cons_of_neg _ hx]
      exact ih h

theorem find?_append_sing {α : Type} {p : α → Bool} {a : α} {l : List α}
    (h : l.find? p = none) (ha : p a = true) :
    (l ++ [a]).find? p = some a := by
  induction l with
  | nil => simp [List.find?_cons, ha]
  | cons x xs ih =>
    by_cases hx : p x
    · rw [List.find?_cons_of_pos _ hx] at h; exact absurd h (by simp)
    · rw [List.find?_cons_of_neg _ hx] at h
      simpa [List.find?_cons_of_neg _ hx] using ih h

theorem insertDesc_length {α : Type} (key : α → Nat) (a : α) (l : List α) :
    (insertDesc key a l).length = l.length + 1 := by
  induction l with
  | nil => rfl
  | cons x xs ih =>
    unfold insertDesc
    split
    · simpa using ih
    · rfl

theorem sortDesc_length {α : Type} (key : α → Nat) (l : List α) :
    (sortDesc key l).length = l.length := by
  induction l with
  | nil => rfl
  | cons x xs ih =>
    unfold sortDesc
    rw [insertDesc_length, ih, List.length_cons]

theorem string_eq_empty_of_data {s : String} (h : s.data = []) : s = "" := by
  cases s with
  | mk data =>
    simp only at h
    subst h
    rfl

theorem data_jsSlice (s : String) (n : Nat) :
    (jsSlice s n).data = s.data.take n := rfl

theorem jsSlice_eq_empty {s : String} {n : Nat} (h : jsSlice s n = "")
    (hn : 0 < n) : s = "" := by
  apply string_eq_empty_of_data
  have hd : s.data.take n = [] := by
    rw [← data_jsSlice, h]
  rcases List.take_eq_nil_iff.mp hd with h1 | h1
  all_goals first
    | exact h1
    | omega

theorem jsSlice_of_le {s : String} {n : Nat} (h : s.data.length ≤ n) :
    jsSlice s n = s := by
  cases s
  unfold jsSlice
  simp_all [List.take_of_length_le]

theorem rat_floor_eq (q : ℚ) : Rat.floor q = Int.floor q :=
  (Rat.floor_def' q).trans Rat.floor_def.symm

theorem round3_eval (q : ℚ) (n : ℤ) (h1 : (n : ℚ) ≤ q * 1000 + 1/2)
    (h2 : q * 1000 + 1/2 < n + 1) : round3 q = (n : ℚ) / 1000 := by
  unfold round3
  rw [rat_floor_eq, Int.floor_eq_iff.mpr ⟨h1, by exact_mod_cast h2⟩]

theorem round3_nonneg {q : ℚ} (h : 0 ≤ q) : 0 ≤ round3 q := by
  unfold round3
  rw [rat_floor_eq]
  have h1 : (0 : ℤ) ≤ Int.floor (q * 1000 + 1/2) := by
    rw [show (0 : ℤ) = Int.floor (0 : ℚ) by simp]
    exact Int.floor_le_floor (by positivity)
  positivity

theorem round3_grid (n : ℤ) : round3 ((n : ℚ) / 1000) = (n : ℚ) / 1000 := by
  rw [round3_eval ((n : ℚ) / 1000) n (by norm_num) (by norm_num)]

theorem jsTrunc_intCast (a : ℤ) : jsTrunc (a : ℚ) = a := by
  unfold jsTrunc
  rw [rat_floor_eq, show (-(a:ℚ)) = ((-a : ℤ) : ℚ) by push_cast; ring,
    rat_floor_eq]
  split
  · exact Int.floor_intCast a
  · rw [Int.floor_intCast]; ring

theorem jsTrunc_nonpos {q : ℚ} (h : q ≤ 0) : jsTrunc q ≤ 0 := by
  unfold jsTrunc
  rw [rat_floor_eq, rat_floor_eq]
  split
  · exact Int.floor_nonpos h
  · have h2 : (0 : ℤ) ≤ Int.floor (-q) := by
      rw [show (0 : ℤ) = Int.floor (0 : ℚ) by simp]
      exact Int.floor_le_floor (by linarith)
    omega

theorem jsParseAmount_nonneg (x : Option ℚ) : 0 ≤ jsParseAmount x := by
  unfold jsParseAmount
  simp

theorem jsParseAmount_intCast (a : ℤ) (h : 0 < a) :
    jsParseAmount (some (a : ℚ)) = a := by
  unfold jsParseAmount
  rw [Option.getD_some, jsTrunc_intCast]
  omega

theorem jsParseAmount_nonpos {q : ℚ} (h : q ≤ 0) :
    jsParseAmount (some q) = 0 := by
  unfold jsParseAmount
  rw [Option.getD_some]
  have := jsTrunc_nonpos h
  omega

/-! Helper lemmas: behaviour of each route at a resolved lookup. -/

theorem getOrCreateWallet_new (sha : String → String) (st : List MemWallet)
    (nickname mnemonic : String) (now : Nat)
    (hmn : ¬ jsTrim mnemonic = "")
    (hfind : st.find? (fun w => w.id == hashMnemonic sha (jsTrim mnemonic))
      = none) :
    getOrCreateWallet sha st nickname mnemonic now =
      some ((⟨hashMnemonic sha (jsTrim mnemonic), deriveAddressFromHash (hashMnemonic sha (jsTrim mnemonic)), jsSlice (jsOr nickname "Guest") 24, START_BALANCE, now, now⟩ : MemWallet),
        st ++ [⟨hashMnemonic sha (jsTrim mnemonic), deriveAddressFromHash (hashMnemonic sha (jsTrim mnemonic)), jsSlice (jsOr nickname "Guest") 24, START_BALANCE, now, now⟩]) := by
  simp only [getOrCreateWallet]
  rw [if_neg hmn, hfind]

theorem getOrCreateWallet_found (sha : String → String) (st : List MemWallet)
    (nickname mnemonic : String) (now : Nat) (w : MemWallet)
    (hmn : ¬ jsTrim mnemonic = "")
    (hfind : st.find? (fun w => w.id == hashMnemonic sha (jsTrim mnemonic))
      = some w) :
    getOrCreateWallet sha st nickname mnemonic now =
      some ({ w with nickname := if jsSlice (jsOr nickname "Guest") 24 ≠ "" ∧ jsSlice (jsOr nickname "Guest") 24 ≠ w.nickname then jsSlice (jsOr nickname "Guest") 24 else w.nickname, updatedAt := now },
        replaceFirst (fun v => v.id == hashMnemonic sha (jsTrim mnemonic))
          { w with nickname := if jsSlice (jsOr nickname "Guest") 24 ≠ "" ∧ jsSlice (jsOr nickname "Guest") 24 ≠ w.nickname then jsSlice (jsOr nickname "Guest") 24 else w.nickname, updatedAt := now } st) := by
  simp only [getOrCreateWallet]
  rw [if_neg hmn, hfind]

theorem memEarn_found (st : List MemWallet) (address : String) (a : ℚ)
    (now : Nat) (w : MemWallet) (haddr : ¬ address = "")
    (hfind : st.find? (fun v => v.address == address) = some w) :
    memEarn st address (some a) now =
      .ok ({ w with balance := round3 (w.balance + a), updatedAt := now },
        replaceFirst (fun v => v.address == address) { w with balance := round3 (w.balance + a), updatedAt := now } st) := by
  simp only [memEarn]
  rw [if_neg haddr, hfind]

theorem memSpend_found (st : List MemWallet) (address : String) (a : ℚ)
    (now : Nat) (w : MemWallet) (haddr : ¬ address = "")
    (hfind : st.find? (fun v => v.address == address) = some w) :
    memSpend st address (some a) now =
      if w.balance < a then .error .insufficient
      else .ok ({ w with balance := round3 (w.balance - a), updatedAt := now },
        replaceFirst (fun v => v.address == address) { w with balance := round3 (w.balance - a), updatedAt := now } st) := by
  simp only [memSpend]
  rw [if_neg haddr, hfind]

theorem dbAward_found (st : List DbWallet) (id : String) (x : Option ℚ)
    (w : DbWallet) (hamt : ¬ jsParseAmount x = 0)
    (hfind : st.find? (fun v => v.id == id) = some w) :
    dbAward st id x =
      .ok ({ w with balance := w.balance + jsParseAmount x },
        replaceFirst (fun v => v.id == id) { w with balance := w.balance + jsParseAmount x } st) := by
  simp only [dbAward]
  rw [if_neg hamt, hfind]

theorem dbSpend_found (st : List DbWallet) (id : String) (x : Option ℚ)
    (w : DbWallet) (hamt : ¬ jsParseAmount x = 0)
    (hfind : st.find? (fun v => v.id == id) = some w) :
    dbSpend st id x =
      if w.balance < jsParseAmount x then .error .insufficient
      else .ok ({ w with balance := w.balance - jsParseAmount x },
        replaceFirst (fun v => v.id == id) { w with balance := w.balance - jsParseAmount x } st) := by
  simp only [dbSpend]
  rw [if_neg hamt, hfind]

theorem walletUpsert_found (sha : String → String) (st : List DbWallet)
    (nickname mnemonic newId : String) (now : Nat) (w : DbWallet)
    (hval : ¬ (jsSlice (jsTrim nickname) 64 = ""
      ∨ (splitWords (jsTrim mnemonic)).length < 12))
    (hfind : st.find?
      (fun v => v.address == addrFromPhrase sha (jsTrim mnemonic))
      = some w) :
    walletUpsert sha st nickname mnemonic newId now =
      .ok ({ w with walletAlias := jsSlice (jsTrim nickname) 64 },
        replaceFirst (fun v => v.address == addrFromPhrase sha (jsTrim mnemonic)) { w with walletAlias := jsSlice (jsTrim nickname) 64 } st) := by
  simp only [walletUpsert]
  rw [if_neg hval, hfind]

theorem walletUpsert_new (sha : String → String) (st : List DbWallet)
    (nickname mnemonic newId : String) (now : Nat)
    (hval : ¬ (jsSlice (jsTrim nickname) 64 = ""
      ∨ (splitWords (jsTrim mnemonic)).length < 12))
    (hfind : st.find?
      (fun v => v.address == addrFromPhrase sha (jsTrim mnemonic))
      = none) :
    walletUpsert sha st nickname mnemonic newId now =
      .ok ((⟨newId, addrFromPhrase sha (jsTrim mnemonic), jsTrim mnemonic, jsSlice (jsTrim nickname) 64, 0, now⟩ : DbWallet),
        st ++ [⟨newId, addrFromPhrase sha (jsTrim mnemonic), jsTrim mnemonic, jsSlice (jsTrim nickname) 64, 0, now⟩]) := by
  simp only [walletUpsert]
  rw [if_neg hval, hfind]

theorem importByWords_found (sha : String → String) (st : List DbWallet)
    (wordsInput newId : String) (now : Nat) (w : DbWallet)
    (hval : ¬ (jsTrim wordsInput = ""
      ∨ (splitWords (jsTrim wordsInput)).length ≠ 12))
    (hfind : st.find? (fun v => v.words == jsTrim wordsInput) = some w) :
    importByWords sha st wordsInput newId now = .ok (w, st) := by
  simp only [importByWords]
  rw [if_neg hval, hfind]

theorem importByWords_new (sha : String → String) (st : List DbWallet)
    (wordsInput newId : String) (now : Nat)
    (hval : ¬ (jsTrim wordsInput = ""
      ∨ (splitWords (jsTrim wordsInput)).length ≠ 12))
    (hfind : st.find? (fun v => v.words == jsTrim wordsInput) = none)
    (hdup : ¬ st.any (fun w =>
      w.address == addrFromPhrase sha (jsTrim wordsInput)) = true) :
    importByWords sha st wordsInput newId now =
      .ok ((⟨newId, addrFromPhrase sha (jsTrim wordsInput), jsTrim wordsInput, "", 0, now⟩ : DbWallet),
        st ++ [⟨newId, addrFromPhrase sha (jsTrim wordsInput), jsTrim wordsInput, "", 0, now⟩]) := by
  simp only [importByWords]
  rw [if_neg hval, hfind, if_neg hdup]

theorem importByWords_dup (sha : String → String) (st : List DbWallet)
    (wordsInput newId : String) (now : Nat)
    (hval : ¬ (jsTrim wordsInput = ""
      ∨ (splitWords (jsTrim wordsInput)).length ≠ 12))
    (hfind : st.find? (fun v => v.words == jsTrim wordsInput) = none)
    (hdup : st.any (fun w =>
      w.address == addrFromPhrase sha (jsTrim wordsInput)) = true) :
    importByWords sha st wordsInput newId now = .error .storeFailure := by
  simp only [importByWords]
  rw [if_neg hval, hfind, if_pos hdup]

theorem importByWords_reject (sha : String → String) (st : List DbWallet)
    (wordsInput newId : String) (now : Nat)
    (hval : (splitWords (jsTrim wordsInput)).length ≠ 12) :
    importByWords sha st wordsInput newId now = .error .need12Words := by
  simp only [importByWords]
  rw [if_pos (Or.inr hval)]

theorem dbPostWall_ok (st : List DbPost) (textInput nickInput newId : String)
    (now : Nat) (htext : ¬ jsSlice (jsTrim textInput) 500 = "") :
    dbPostWall st textInput nickInput newId now =
      .ok ((⟨newId, jsSlice (jsTrim textInput) 500, jsSlice (jsOr (jsTrim nickInput) "someone") 40, now, 0⟩ : DbPost),
        st ++ [⟨newId, jsSlice (jsTrim textInput) 500, jsSlice (jsOr (jsTrim nickInput) "someone") 40, now, 0⟩]) := by
  simp only [dbPostWall]
  rw [if_neg htext]

theorem memPostWall_ok (st : MemWallState) (text nick : String) (now : Nat)
    (htext : ¬ jsTrim text = "") :
    memPostWall st text nick now =
      .ok ((⟨natToString st.nextWallId, jsTrim text, jsOr (jsTrim (jsOr nick "someone")) "someone", "just now", now⟩ : MemPost),
        ⟨st.posts ++ [⟨natToString st.nextWallId, jsTrim text, jsOr (jsTrim (jsOr nick "someone")) "someone", "just now", now⟩], st.nextWallId + 1⟩) := by
  simp only [memPostWall]
  rw [if_neg htext]
  rfl

/-! Additional small helpers used by the claim theorems. -/

theorem jsParseAmount_none : jsParseAmount none = 0 := by
  unfold jsParseAmount jsTrunc
  rw [Option.getD_none, if_pos le_rfl, rat_floor_eq]
  simp

theorem jsParseAmount_of_pos {q : ℚ} (h : 1 ≤ jsTrunc q) :
    jsParseAmount (some q) = jsTrunc q := by
  unfold jsParseAmount
  rw [Option.getD_some]
  omega

theorem dbAward_reject (st : List DbWallet) (id : String) (x : Option ℚ)
    (hamt : jsParseAmount x = 0) : dbAward st id x = .error .badAmount := by
  simp only [dbAward]
  rw [if_pos hamt]

theorem memEarn_none (st : List MemWallet) (address : String) (now : Nat) :
    memEarn st address none now = .error .invalidPayload := by
  simp only [memEarn]
  split
  · rfl
  · rfl

theorem okState_ok {E A S : Type} (st st2 : S) (a : A) :
    okState st (.ok (a, st2) : Except E (A × S)) = st2 := rfl

theorem okState_error {E A S : Type} (st : S) (e : E) :
    okState st (.error e : Except E (A × S)) = st := rfl

theorem walletUpsert_invalid (sha : String → String) (st : List DbWallet)
    (nickname mnemonic newId : String) (now : Nat)
    (hval : jsSlice (jsTrim nickname) 64 = ""
      ∨ (splitWords (jsTrim mnemonic)).length < 12) :
    walletUpsert sha st nickname mnemonic newId now = .error .badPayload := by
  simp only [walletUpsert]
  rw [if_pos hval]

theorem walletCreate_dup (sha : String → String) (st : List DbWallet)
    (aliasInput : String) (genWords : List String) (newId : String)
    (now : Nat)
    (hdup : st.any (fun w =>
      w.address == addrFromPhrase sha (String.intercalate " " genWords))
      = true) :
    walletCreate sha st aliasInput genWords newId now =
      .error .storeFailure := by
  simp only [walletCreate]
  rw [if_pos hdup]

theorem walletCreate_ok (sha : String → String) (st : List DbWallet)
    (aliasInput : String) (genWords : List String) (newId : String)
    (now : Nat)
    (hdup : ¬ st.any (fun w =>
      w.address == addrFromPhrase sha (String.intercalate " " genWords))
      = true) :
    walletCreate sha st aliasInput genWords newId now =
      .ok (((⟨newId, addrFromPhrase sha (String.intercalate " " genWords), String.intercalate " " genWords, jsSlice (jsOr aliasInput "") 64, 0, now⟩ : DbWallet), genWords),
        st ++ [⟨newId, addrFromPhrase sha (String.intercalate " " genWords), String.intercalate " " genWords, jsSlice (jsOr aliasInput "") 64, 0, now⟩]) := by
  simp only [walletCreate]
  rw [if_neg hdup]

theorem importByWords_invalid (sha : String → String) (st : List DbWallet)
    (wordsInput newId : String) (now : Nat)
    (hval : jsTrim wordsInput = ""
      ∨ (splitWords (jsTrim wordsInput)).length ≠ 12) :
    importByWords sha st wordsInput newId now = .error .need12Words := by
  simp only [importByWords]
  rw [if_pos hval]

theorem dbAward_notFound (st : List DbWallet) (id : String) (x : Option ℚ)
    (hamt : ¬ jsParseAmount x = 0)
    (hfind : st.find? (fun v => v.id == id) = none) :
    dbAward st id x = .error .notFound := by
  simp only [dbAward]
  rw [if_neg hamt, hfind]

theorem dbSpend_reject (st : List DbWallet) (id : String) (x : Option ℚ)
    (hamt : jsParseAmount x = 0) : dbSpend st id x = .error .badAmount := by
  simp only [dbSpend]
  rw [if_pos hamt]

theorem dbSpend_notFound (st : List DbWallet) (id : String) (x : Option ℚ)
    (hamt : ¬ jsParseAmount x = 0)
    (hfind : st.find? (fun v => v.id == id) = none) :
    dbSpend st id x = .error .notFound := by
  simp only [dbSpend]
  rw [if_neg hamt, hfind]

theorem memSpend_empty (st : List MemWallet) (amount : Option ℚ) (now : Nat) :
    memSpend st "" amount now = .error .invalidPayload := rfl

theorem memSpend_none (st : List MemWallet) (address : String) (now : Nat) :
    memSpend st address none now = .error .invalidPayload := by
  simp only [memSpend]
  split
  · rfl
  · rfl

theorem memSpend_notFound (st : List MemWallet) (address : String) (a : ℚ)
    (now : Nat) (haddr : ¬ address = "")
    (hfind : st.find? (fun v => v.address == address) = none) :
    memSpend st address (some a) now = .error .notFound := by
  simp only [memSpend]
  rw [if_neg haddr, hfind]

/-- All balances of a DB wallet table are non-negative. -/
def dbNonneg (st : List DbWallet) : Prop := ∀ w ∈ st, 0 ≤ w.balance

theorem applyDbOp_nonneg (sha : String → String) (st : List DbWallet)
    (op : DbOp) (h : dbNonneg st) : dbNonneg (applyDbOp sha st op) := by
  cases op with
  | upsert n m i t =>
    simp only [applyDbOp]
    by_cases hval : jsSlice (jsTrim n) 64 = ""
        ∨ (splitWords (jsTrim m)).length < 12
    · rw [walletUpsert_invalid sha st n m i t hval, okState_error]
      exact h
    · rcases hfind : st.find?
        (fun v => v.address == addrFromPhrase sha (jsTrim m)) with _ | w0
      · rw [walletUpsert_new sha st n m i t hval hfind, okState_ok]
        intro w hw
        rcases List.mem_append.mp hw with h1 | h1
        · exact h w h1
        · rw [List.mem_singleton.mp h1]
      · rw [walletUpsert_found sha st n m i t w0 hval hfind, okState_ok]
        intro w hw
        rcases mem_replaceFirst hw with h1 | h1
        · rw [h1]
          exact h w0 (List.mem_of_find?_eq_some hfind)
        · exact h w h1
  | create a g i t =>
    simp only [applyDbOp]
    by_cases hdup : st.any (fun w =>
      w.address == addrFromPhrase sha (String.intercalate " " g)) = true
    · rw [walletCreate_dup sha st a g i t hdup, okState_error]
      exact h
    · rw [walletCreate_ok sha st a g i t hdup, okState_ok]
      intro w hw
      rcases List.mem_append.mp hw with h1 | h1
      · exact h w h1
      · rw [List.mem_singleton.mp h1]
  | importWords wi i t =>
    simp only [applyDbOp]
    by_cases hval : jsTrim wi = "" ∨ (splitWords (jsTrim wi)).length ≠ 12
    · rw [importByWords_invalid sha st wi i t hval, okState_error]
      exact h
    · rcases hfind : st.find? (fun v => v.words == jsTrim wi) with _ | w0
      · by_cases hdup : st.any (fun w =>
            w.address == addrFromPhrase sha (jsTrim wi)) = true
        · rw [importByWords_dup sha st wi i t hval hfind hdup, okState_error]
          exact h
        · rw [importByWords_new sha st wi i t hval hfind hdup, okState_ok]
          intro w hw
          rcases List.mem_append.mp hw with h1 | h1
          · exact h w h1
          · rw [List.mem_singleton.mp h1]
      · rw [importByWords_found sha st wi i t w0 hval hfind, okState_ok]
        exact h
  | award i x =>
    simp only [applyDbOp]
    by_cases hamt : jsParseAmount x = 0
    · rw [dbAward_reject st i x hamt, okState_error]
      exact h
    · rcases hfind : st.find? (fun v => v.id == i) with _ | w0
      · rw [dbAward_notFound st i x hamt hfind, okState_error]
        exact h
      · rw [dbAward_found st i x w0 hamt hfind, okState_ok]
        intro w hw
        rcases mem_replaceFirst hw with h1 | h1
        · rw [h1]
          have h2 := h w0 (List.mem_of_find?_eq_some hfind)
          have h3 := jsParseAmount_nonneg x
          simp only
          omega
        · exact h w h1
  | spend i x =>
    simp only [applyDbOp]
    by_cases hamt : jsParseAmount x = 0
    · rw [dbSpend_reject st i x hamt, okState_error]
      exact h
    · rcases hfind : st.find? (fun v => v.id == i) with _ | w0
      · rw [dbSpend_notFound st i x hamt hfind, okState_error]
        exact h
      · rw [dbSpend_found st i x w0 hamt hfind]
        by_cases hlt : w0.balance < jsParseAmount x
        · rw [if_pos hlt, okState_error]
          exact h
        · rw [if_neg hlt, okState_ok]
          intro w hw
          rcases mem_replaceFirst hw with h1 | h1
          · rw [h1]
            simp only
            omega
          · exact h w h1

theorem foldl_applyDbOp_nonneg (sha : String → String) (ops : List DbOp)
    (st : List DbWallet) (h : dbNonneg st) :
    dbNonneg (ops.foldl (applyDbOp sha) st) := by
  induction ops generalizing st with
  | nil => exact h
  | cons op rest ih =>
    exact ih (applyDbOp sha st op) (applyDbOp_nonneg sha st op h)

theorem getOrCreateWallet_empty (sha : String → String)
    (st : List MemWallet) (nickname mnemonic : String) (now : Nat)
    (hmn : jsTrim mnemonic = "") :
    getOrCreateWallet sha st nickname mnemonic now = none := by
  simp only [getOrCreateWallet]
  rw [if_pos hmn]

/-- After a successful getOrCreateWallet call, the returned wallet is the one
the store resolves for the mnemonic key. -/
theorem getOrCreateWallet_result_found (sha : String → String)
    (st st1 : List MemWallet) (n p : String) (t : Nat) (w1 : MemWallet)
    (hmn : ¬ jsTrim p = "")
    (h1 : getOrCreateWallet sha st n p t = some (w1, st1)) :
    st1.find? (fun v => v.id == hashMnemonic sha (jsTrim p)) = some w1 := by
  rcases hfind : st.find? (fun v => v.id == hashMnemonic sha (jsTrim p))
    with _ | w0
  · rw [getOrCreateWallet_new sha st n p t hmn hfind] at h1
    simp only [Option.some.injEq, Prod.mk.injEq] at h1
    obtain ⟨hw1, hst1⟩ := h1
    subst hst1
    subst hw1
    exact find?_append_sing hfind (by simp)
  · rw [getOrCreateWallet_found sha st n p t w0 hmn hfind] at h1
    simp only [Option.some.injEq, Prod.mk.injEq] at h1
    obtain ⟨hw1, hst1⟩ := h1
    subst hst1
    subst hw1
    apply find?_replaceFirst hfind
    simpa using List.find?_some hfind

/-- After a successful upsert, the returned row is the one the table
resolves for the derived address. -/
theorem walletUpsert_result_found (sha : String → String)
    (st st1 : List DbWallet) (n p newId : String) (t : Nat) (w1 : DbWallet)
    (hval : ¬ (jsSlice (jsTrim n) 64 = ""
      ∨ (splitWords (jsTrim p)).length < 12))
    (h1 : walletUpsert sha st n p newId t = .ok (w1, st1)) :
    st1.find? (fun v => v.address == addrFromPhrase sha (jsTrim p))
      = some w1 := by
  rcases hfind : st.find?
      (fun v => v.address == addrFromPhrase sha (jsTrim p)) with _ | w0
  · rw [walletUpsert_new sha st n p newId t hval hfind] at h1
    simp only [Except.ok.injEq, Prod.mk.injEq] at h1
    obtain ⟨hw1, hst1⟩ := h1
    subst hst1
    subst hw1
    exact find?_append_sing hfind (by simp)
  · rw [walletUpsert_found sha st n p newId t w0 hval hfind] at h1
    simp only [Except.ok.injEq, Prod.mk.injEq] at h1
    obtain ⟨hw1, hst1⟩ := h1
    subst hst1
    subst hw1
    apply find?_replaceFirst hfind
    simpa using List.find?_some hfind

/-! Claim theorems. -/

/-- C3: calling the create-or-upsert operation twice with the same
passphrase and different nicknames yields the same id and the same address
both times, with the display label equal to the second submitted nickname
afterwards (stated for nicknames within the documented caps, 24 characters
in the in-memory variant and 64 in the DB variant), and the second call does
not grow the store, so no duplicate record for the passphrase is ever
created. -/
theorem c3_upsert_same_passphrase :
    (∀ (sha : String → String) (st : List MemWallet) (n1 n2 p : String)
        (t1 t2 : Nat) (w1 : MemWallet) (st1 : List MemWallet),
        jsTrim p ≠ "" → n2 ≠ "" → n2.data.length ≤ 24 →
        getOrCreateWallet sha st n1 p t1 = some (w1, st1) →
        ∃ w2 st2, getOrCreateWallet sha st1 n2 p t2 = some (w2, st2)
          ∧ w2.id = w1.id ∧ w2.address = w1.address ∧ w2.nickname = n2
          ∧ st2.length = st1.length)
    ∧ (∀ (sha : String → String) (st : List DbWallet)
        (n1 n2 p id1 id2 : String) (t1 t2 : Nat) (w1 : DbWallet)
        (st1 : List DbWallet),
        jsSlice (jsTrim n1) 64 ≠ "" → 12 ≤ (splitWords (jsTrim p)).length →
        jsTrim n2 = n2 → n2 ≠ "" → n2.data.length ≤ 64 →
        walletUpsert sha st n1 p id1 t1 = .ok (w1, st1) →
        ∃ w2 st2, walletUpsert sha st1 n2 p id2 t2 = .ok (w2, st2)
          ∧ w2.id = w1.id ∧ w2.address = w1.address ∧ w2.walletAlias = n2
          ∧ st2.length = st1.length) := by
  constructor
  · intro sha st n1 n2 p t1 t2 w1 st1 hp hn2 hlen h1
    have hfind1 := getOrCreateWallet_result_found sha st st1 n1 p t1 w1 hp h1
    have hnick : jsSlice (jsOr n2 "Guest") 24 = n2 := by
      rw [jsOr, if_neg hn2]
      exact jsSlice_of_le hlen
    refine ⟨_, _, getOrCreateWallet_found sha st1 n2 p t2 w1 hp hfind1,
      rfl, rfl, ?_, ?_⟩
    · show (if jsSlice (jsOr n2 "Guest") 24 ≠ ""
          ∧ jsSlice (jsOr n2 "Guest") 24 ≠ w1.nickname
        then jsSlice (jsOr n2 "Guest") 24 else w1.nickname) = n2
      rw [hnick]
      by_cases hne : n2 = w1.nickname
      · rw [if_neg (by simp [hne])]
        exact hne.symm
      · rw [if_pos ⟨hn2, hne⟩]
    · exact replaceFirst_length _ _ _
  · intro sha st n1 n2 p id1 id2 t1 t2 w1 st1 hn1 hw hst2 hn2 hlen h1
    have hval1 : ¬ (jsSlice (jsTrim n1) 64 = ""
        ∨ (splitWords (jsTrim p)).length < 12) := by
      rintro (h | h)
      · exact hn1 h
      · omega
    have hval2 : ¬ (jsSlice (jsTrim n2) 64 = ""
        ∨ (splitWords (jsTrim p)).length < 12) := by
      rintro (h | h)
      · rw [hst2, jsSlice_of_le hlen] at h
        exact hn2 h
      · omega
    have hfind1 :=
      walletUpsert_result_found sha st st1 n1 p id1 t1 w1 hval1 h1
    refine ⟨_, _, walletUpsert_found sha st1 n2 p id2 t2 w1 hval2 hfind1,
      rfl, rfl, ?_, ?_⟩
    · show jsSlice (jsTrim n2) 64 = n2
      rw [hst2]
      exact jsSlice_of_le hlen
    · exact replaceFirst_length _ _ _

/-- C3 witness: two concrete calls with the same passphrase and nicknames
alice then bob, in both variants, through the theorem. -/
theorem c3_upsert_same_passphrase_witness :
    (∃ w2 st2, getOrCreateWallet (fun s => s)
          [⟨"m", "MWC-M000-0000-0000-0000", "alice", 1, 0, 0⟩] "bob" "m" 1
        = some (w2, st2)
      ∧ w2.id = (MemWallet.mk "m" "MWC-M000-0000-0000-0000" "alice" 1 0 0).id
      ∧ w2.address =
          (MemWallet.mk "m" "MWC-M000-0000-0000-0000" "alice" 1 0 0).address
      ∧ w2.nickname = "bob"
      ∧ st2.length =
          [(MemWallet.mk "m" "MWC-M000-0000-0000-0000" "alice" 1 0 0)].length)
    ∧ (∃ w2 st2, walletUpsert (fun s => s)
          [⟨"i1", "PW-A B C D E ", "a b c d e f g h i j k l", "alice", 0, 0⟩]
          "bob" "a b c d e f g h i j k l" "i2" 1 = .ok (w2, st2)
      ∧ w2.id = (DbWallet.mk "i1" "PW-A B C D E "
          "a b c d e f g h i j k l" "alice" 0 0).id
      ∧ w2.address = (DbWallet.mk "i1" "PW-A B C D E "
          "a b c d e f g h i j k l" "alice" 0 0).address
      ∧ w2.walletAlias = "bob"
      ∧ st2.length = [(DbWallet.mk "i1" "PW-A B C D E "
          "a b c d e f g h i j k l" "alice" 0 0)].length) :=
  ⟨c3_upsert_same_passphrase.1 (fun s => s) [] "alice" "bob" "m" 0 1
      ⟨"m", "MWC-M000-0000-0000-0000", "alice", 1, 0, 0⟩
      [⟨"m", "MWC-M000-0000-0000-0000", "alice", 1, 0, 0⟩]
      (by decide) (by decide) (by decide) rfl,
    c3_upsert_same_passphrase.2 (fun s => s) [] "alice" "bob"
      "a b c d e f g h i j k l" "i1" "i2" 0 1
      ⟨"i1", "PW-A B C D E ", "a b c d e f g h i j k l", "alice", 0, 0⟩
      [⟨"i1", "PW-A B C D E ", "a b c d e f g h i j k l", "alice", 0, 0⟩]
      (by decide) (by decide) (by decide) (by decide) (by decide) rfl⟩

/-- C7: the import operation rejects any input whose whitespace-separated
word count differs from twelve; for a twelve-word phrase not stored yet,
whose derived address does not collide with an existing row (the unique
constraint on the address column, which with the real digest always holds
for distinct phrases), it creates a wallet with empty alias and zero
balance, and an immediately repeated call with the same words returns that
identical record and leaves the table unchanged; when the derived address
does collide with an existing row, the insert fails the unique constraint
and the route answers a store failure with no row created. -/
theorem c7_import_by_words :
    (∀ (sha : String → String) (st : List DbWallet) (v id : String)
        (now : Nat), (splitWords (jsTrim v)).length ≠ 12 →
        importByWords sha st v id now = .error .need12Words)
    ∧ (∀ (sha : String → String) (st : List DbWallet) (v id1 id2 : String)
        (now1 now2 : Nat),
        (splitWords (jsTrim v)).length = 12 →
        (∀ r ∈ st, r.words ≠ jsTrim v) →
        (∀ r ∈ st, r.address ≠ addrFromPhrase sha (jsTrim v)) →
        ∃ nw st1, importByWords sha st v id1 now1 = .ok (nw, st1)
          ∧ nw.balance = 0 ∧ nw.walletAlias = "" ∧ nw.id = id1
          ∧ nw.address = addrFromPhrase sha (jsTrim v)
          ∧ st1 = st ++ [nw]
          ∧ importByWords sha st1 v id2 now2 = .ok (nw, st1))
    ∧ (∀ (sha : String → String) (st : List DbWallet) (v id : String)
        (now : Nat) (w0 : DbWallet),
        (splitWords (jsTrim v)).length = 12 →
        (∀ r ∈ st, r.words ≠ jsTrim v) →
        w0 ∈ st → w0.address = addrFromPhrase sha (jsTrim v) →
        importByWords sha st v id now = .error .storeFailure) := by
  have hvalof : ∀ (v : String), (splitWords (jsTrim v)).length = 12 →
      ¬ (jsTrim v = "" ∨ (splitWords (jsTrim v)).length ≠ 12) := by
    intro v hc
    rintro (h1 | h1)
    · rw [h1] at hc
      exact absurd hc (by decide)
    · exact h1 hc
  have hfindof : ∀ (st : List DbWallet) (v : String),
      (∀ r ∈ st, r.words ≠ jsTrim v) →
      st.find? (fun r => r.words == jsTrim v) = none := by
    intro st v hfresh
    rw [List.find?_eq_none]
    intro r hr
    simpa using hfresh r hr
  refine ⟨?_, ?_, ?_⟩
  · intro sha st v id now hc
    exact importByWords_reject sha st v id now hc
  · intro sha st v id1 id2 now1 now2 hc hfresh haddr
    have hval := hvalof v hc
    have hfind := hfindof st v hfresh
    have hdup : ¬ st.any (fun w =>
        w.address == addrFromPhrase sha (jsTrim v)) = true := by
      intro hany
      obtain ⟨r, hr, hpr⟩ := List.any_eq_true.mp hany
      exact haddr r hr (by simpa using hpr)
    refine ⟨_, _, importByWords_new sha st v id1 now1 hval hfind hdup,
      rfl, rfl, rfl, rfl, rfl, ?_⟩
    exact importByWords_found sha _ v id2 now2 _ hval
      (find?_append_sing hfind (by simp))
  · intro sha st v id now w0 hc hfresh hw0 hw0addr
    have hval := hvalof v hc
    have hfind := hfindof st v hfresh
    exact importByWords_dup sha st v id now hval hfind
      (List.any_eq_true.mpr ⟨w0, hw0, by simp [hw0addr]⟩)

/-- C7 witness: a concrete 11-word rejection; importing a fresh 12-word
phrase into the empty table and importing it again; and a concrete
duplicate-address store failure under a collapsing digest, all through the
theorem. -/
theorem c7_import_by_words_witness :
    importByWords (fun s => s) [] "a b c d e f g h i j k" "i0" 0
      = .error .need12Words
    ∧ (∃ nw st1, importByWords (fun s => s) [] "a b c d e f g h i j k l"
          "i1" 0 = .ok (nw, st1)
      ∧ nw.balance = 0 ∧ nw.walletAlias = "" ∧ nw.id = "i1"
      ∧ nw.address = addrFromPhrase (fun s => s)
          (jsTrim "a b c d e f g h i j k l")
      ∧ st1 = [] ++ [nw]
      ∧ importByWords (fun s => s) st1 "a b c d e f g h i j k l" "i2" 1
          = .ok (nw, st1))
    ∧ importByWords (fun _ => "") [⟨"i0", "PW-", "b c d e f g h i j k l m", "", 0, 0⟩]
        "a b c d e f g h i j k l" "i1" 0 = .error .storeFailure :=
  ⟨c7_import_by_words.1 (fun s => s) [] "a b c d e f g h i j k" "i0" 0
      (by decide),
    c7_import_by_words.2.1 (fun s => s) [] "a b c d e f g h i j k l" "i1"
      "i2" 0 1 (by decide) (by simp) (by simp),
    c7_import_by_words.2.2 (fun _ => "")
      [⟨"i0", "PW-", "b c d e f g h i j k l m", "", 0, 0⟩]
      "a b c d e f g h i j k l" "i1" 0
      ⟨"i0", "PW-", "b c d e f g h i j k l m", "", 0, 0⟩
      (by decide) (by decide) (List.mem_singleton.mpr rfl) (by decide)⟩

/-- C1 counterexample: the earn route of the float variant checks only that
the amount is a finite number, so a negative amount passes validation and
drives the balance below zero: from the starting balance 1, earning minus
two succeeds and leaves the balance at minus one, with no rejection. -/
theorem c1_negative_earn_counterexample :
    memEarn [⟨"m", "A", "n", 1, 0, 0⟩] "A" (some (-2)) 5 =
      .ok (⟨"m", "A", "n", -1, 0, 5⟩, [⟨"m", "A", "n", -1, 0, 5⟩])
    ∧ ((-1 : ℚ) < 0) := by
  constructor
  · have h0 : round3 ((1 : ℚ) + -2) = -1 := by
      rw [round3_eval ((1 : ℚ) + -2) (-1000) (by norm_num) (by norm_num)]
      norm_num
    rw [← h0]
    rfl
  · norm_num

/-- C1 amended: in the integer-balance DB variant every balance reachable
from the empty table by any sequence of ledger operations is non-negative
(amounts are coerced non-negative and spend is guarded and rejected, never
clamped); in the float variant the spend route preserves non-negativity of
all stored balances, but the earn route accepts negative amounts and can
drive a balance negative, as the counterexample shows. -/
theorem c1_balance_invariant :
    (∀ (sha : String → String) (ops : List DbOp) (w : DbWallet),
        w ∈ runDbOps sha ops → 0 ≤ w.balance)
    ∧ (∀ (st : List MemWallet) (address : String) (x : Option ℚ) (now : Nat)
        (w2 : MemWallet) (st2 : List MemWallet),
        (∀ w ∈ st, 0 ≤ w.balance) →
        memSpend st address x now = .ok (w2, st2) →
        ∀ w ∈ st2, 0 ≤ w.balance) := by
  constructor
  · intro sha ops w hw
    exact foldl_applyDbOp_nonneg sha ops []
      (by intro w hw; simp at hw) w hw
  · intro st address x now w2 st2 h hres
    by_cases haddr : address = ""
    · subst haddr
      rw [memSpend_empty] at hres
      exact absurd hres (by simp)
    · cases x with
      | none =>
        rw [memSpend_none] at hres
        exact absurd hres (by simp)
      | some a =>
        rcases hfind : st.find? (fun v => v.address == address) with _ | w0
        · rw [memSpend_notFound st address a now haddr hfind] at hres
          exact absurd hres (by simp)
        · rw [memSpend_found st address a now w0 haddr hfind] at hres
          by_cases hlt : w0.balance < a
          · rw [if_pos hlt] at hres
            exact absurd hres (by simp)
          · rw [if_neg hlt] at hres
            simp only [Except.ok.injEq, Prod.mk.injEq] at hres
            obtain ⟨hw2, hst2⟩ := hres
            subst hst2
            intro w hw
            rcases mem_replaceFirst hw with h1 | h1
            · rw [h1]
              exact round3_nonneg (by linarith [not_lt.mp hlt])
            · exact h w h1

/-- C1 witness: the wallet created by a concrete import has a non-negative
balance, and the wallet left by a concrete successful spend has a
non-negative balance. -/
theorem c1_balance_invariant_witness :
    (0 : ℤ) ≤ (DbWallet.mk "id1" "PW-A B C D E "
        "a b c d e f g h i j k l" "" 0 3).balance
    ∧ (0 : ℚ) ≤ (MemWallet.mk "m" "A" "n" (round3 (1 - 1)) 0 2).balance :=
  ⟨c1_balance_invariant.1 (fun s => s)
      [DbOp.importWords "a b c d e f g h i j k l" "id1" 3] _ (by decide),
    c1_balance_invariant.2 [⟨"m", "A", "n", 1, 0, 0⟩] "A" (some 1) 2
      ⟨"m", "A", "n", round3 (1 - 1), 0, 2⟩
      [⟨"m", "A", "n", round3 (1 - 1), 0, 2⟩]
      (by intro w hw; rw [List.mem_singleton.mp hw]; norm_num) rfl
      ⟨"m", "A", "n", round3 (1 - 1), 0, 2⟩ (List.mem_singleton.mpr rfl)⟩

/-- C10 counterexample: the in-memory variant does not return the claimed
record shape.  Its publicWallet object literal lacks the id field and adds an
updatedAt field, so the response shape is not exactly
(id, address, nickname, balance, createdAt). -/
theorem c10_mem_shape_counterexample :
    memPublicWalletFields ≠ specWalletRecordFieldsMem
    ∧ "id" ∉ memPublicWalletFields
    ∧ "updatedAt" ∈ memPublicWalletFields := by
  refine ⟨by decide, by decide, by decide⟩

/-- C10 amended: the DB-backed variant returns exactly the claimed record
shape (id, address, alias, balance, created_at) from every wallet query, the
raw words are absent from that projection and appear only in the create
response, which appends them once; the in-memory variant returns
(address, nickname, balance, createdAt, updatedAt), with no id field and
without the raw mnemonic, which it never stores. -/
theorem c10_response_field_shapes :
    dbWalletReturningFields = specWalletRecordFields
    ∧ dbCreateResponseFields = specWalletRecordFields ++ ["words"]
    ∧ "words" ∉ dbWalletReturningFields
    ∧ memPublicWalletFields =
        ["address", "nickname", "balance", "createdAt", "updatedAt"]
    ∧ "id" ∉ memPublicWalletFields
    ∧ "words" ∉ memPublicWalletFields
    ∧ "mnemonic" ∉ memPublicWalletFields
    ∧ (∀ w : MemWallet, publicWallet w =
        ⟨w.address, w.nickname, round3 w.balance, w.createdAt,
          w.updatedAt⟩) := by
  refine ⟨by decide, by decide, by decide, by decide, by decide, by decide,
    by decide, fun w => rfl⟩

/-- C6 counterexample: the in-memory wall listing has no limit, so after
inserting sixty posts it returns all sixty, not fifty as the claim
states. -/
theorem c6_mem_no_cap_counterexample :
    (memWallList memWall60).length = 60 ∧ (60 : Nat) ≠ 50 := by
  refine ⟨by decide, by decide⟩

/-- C6 amended: the DB-backed wall listing returns newest first capped at
fifty (after sixty posts with increasing timestamps it returns exactly the
last fifty, in reversed insertion order), while the in-memory listing
returns all posts newest first with no cap (after sixty posts it returns all
sixty, in reversed insertion order). -/
theorem c6_wall_list_order_and_cap :
    (dbWallList dbWall60).length = 50
    ∧ dbWallList dbWall60 =
        ((List.range 60).reverse.take 50).map
          (fun i => ⟨natToString i, "hello", "nick", "just now"⟩)
    ∧ (memWallList memWall60).length = 60
    ∧ memWallList memWall60 =
        (List.range 60).reverse.map
          (fun i => ⟨natToString (i + 1), "hello", "nick", "just now", i⟩)
    ∧ (∀ st : List DbPost, (dbWallList st).length ≤ 50)
    ∧ (∀ st : MemWallState, (memWallList st).length = st.posts.length) := by
  refine ⟨by decide, by decide, by decide, by decide, ?_, ?_⟩
  · intro st
    simp only [dbWallList, List.length_map, List.length_take]
    exact min_le_left _ _
  · intro st
    simp only [memWallList, sortDesc_length]

/-- C4 counterexample: earn accepts a negative amount (the route validates
only that the amount is a finite number), and award accepts a fractional
amount by truncating it with parseInt; the claim says both are rejected with
an invalid-amount error. -/
theorem c4_lax_amount_counterexample :
    memEarn [⟨"m", "A", "n", 1, 0, 0⟩] "A" (some (-1)) 1 =
      .ok (⟨"m", "A", "n", 0, 0, 1⟩, [⟨"m", "A", "n", 0, 0, 1⟩])
    ∧ dbAward [⟨"i", "B", "w", "al", 0, 0⟩] "i" (some (37/10)) =
      .ok (⟨"i", "B", "w", "al", 3, 0⟩, [⟨"i", "B", "w", "al", 3, 0⟩]) := by
  constructor
  · have h0 : round3 ((1 : ℚ) + -1) = 0 := by
      rw [round3_eval ((1 : ℚ) + -1) 0 (by norm_num) (by norm_num)]
      norm_num
    rw [← h0]
    rfl
  · have ht : jsTrunc ((37 : ℚ)/10) = 3 := by
      unfold jsTrunc
      rw [if_pos (by norm_num), rat_floor_eq,
        show ((37 : ℚ)/10) = ((37 : ℤ) : ℚ)/((10 : ℕ) : ℚ) by norm_num,
        Rat.floor_intCast_div_natCast]
      decide
    have h : jsParseAmount (some ((37 : ℚ)/10)) = 3 := by
      rw [jsParseAmount_of_pos (by omega), ht]
    rw [dbAward_found [⟨"i", "B", "w", "al", 0, 0⟩] "i" (some (37/10)) ⟨"i", "B", "w", "al", 0, 0⟩ (by omega) rfl, h]
    decide

/-- C4 amended: the award route of the DB variant rejects a missing or
non-numeric amount and any amount truncating to zero or below, but accepts a
fractional amount of at least one by truncating it; the earn route of the
float variant rejects only a missing or non-numeric amount and otherwise
applies any finite amount, including zero and negative ones.  Every rejection
happens before any store write. -/
theorem c4_amount_validation :
    (∀ (st : List DbWallet) (id : String),
        dbAward st id none = .error .badAmount)
    ∧ (∀ (st : List DbWallet) (id : String) (q : ℚ), jsTrunc q ≤ 0 →
        dbAward st id (some q) = .error .badAmount)
    ∧ (∀ (st : List DbWallet) (id : String) (q : ℚ) (w : DbWallet),
        st.find? (fun v => v.id == id) = some w → 1 ≤ jsTrunc q →
        dbAward st id (some q) =
          .ok ({ w with balance := w.balance + jsTrunc q },
            replaceFirst (fun v => v.id == id)
              { w with balance := w.balance + jsTrunc q } st))
    ∧ (∀ (st : List MemWallet) (address : String) (now : Nat),
        memEarn st address none now = .error .invalidPayload)
    ∧ (∀ (st : List MemWallet) (address : String) (q : ℚ) (now : Nat)
        (w : MemWallet), address ≠ "" →
        st.find? (fun v => v.address == address) = some w →
        memEarn st address (some q) now =
          .ok ({ w with balance := round3 (w.balance + q), updatedAt := now },
            replaceFirst (fun v => v.address == address)
              { w with balance := round3 (w.balance + q), updatedAt := now } st)) := by
  refine ⟨?_, ?_, ?_, ?_, ?_⟩
  · intro st id
    exact dbAward_reject st id none jsParseAmount_none
  · intro st id q hq
    refine dbAward_reject st id (some q) ?_
    unfold jsParseAmount
    rw [Option.getD_some]
    omega
  · intro st id q w hfind hq
    have h := jsParseAmount_of_pos hq
    rw [dbAward_found st id (some q) w (by omega) hfind, h]
  · intro st address now
    exact memEarn_none st address now
  · intro st address q now w haddr hfind
    exact memEarn_found st address q now w haddr hfind

/-- C4 witness for the amended theorem: concrete instances of the award
rejection of a negative amount and of a fractional amount below one, which
truncates to zero, and of the earn update. -/
theorem c4_amount_validation_witness :
    dbAward [(⟨"i", "B", "w", "al", 5, 0⟩ : DbWallet)] "i" (some (-2)) =
      .error .badAmount
    ∧ dbAward [(⟨"i", "B", "w", "al", 5, 0⟩ : DbWallet)] "i"
        (some ((1 : ℚ)/2)) = .error .badAmount
    ∧ memEarn [(⟨"m", "A", "n", 1, 0, 0⟩ : MemWallet)] "A" (some 2) 7 =
      .ok (⟨"m", "A", "n", round3 (1 + 2), 0, 7⟩,
        [⟨"m", "A", "n", round3 (1 + 2), 0, 7⟩]) :=
  ⟨c4_amount_validation.2.1 _ "i" (-2) (jsTrunc_nonpos (by norm_num)),
    c4_amount_validation.2.1 _ "i" ((1 : ℚ)/2) (by
      have ht : jsTrunc ((1 : ℚ)/2) = 0 := by
        unfold jsTrunc
        rw [if_pos (by norm_num), rat_floor_eq,
          show ((1 : ℚ)/2) = ((1 : ℤ) : ℚ)/((2 : ℕ) : ℚ) by norm_num,
          Rat.floor_intCast_div_natCast]
        decide
      omega),
    c4_amount_validation.2.2.2.2 _ "A" 2 7 ⟨"m", "A", "n", 1, 0, 0⟩
      (by decide) rfl⟩

/-- C2 counterexample: in the DB variant a fractional amount is truncated by
parseInt before the funds check, so spending 2.5 from a balance of 2
succeeds (deducting 2) although the balance is smaller than the requested
amount, where the claim demands an insufficient-funds failure. -/
theorem c2_fractional_spend_counterexample :
    dbSpend [⟨"i", "B", "w", "al", 2, 0⟩] "i" (some (5/2)) =
      .ok (⟨"i", "B", "w", "al", 0, 0⟩, [⟨"i", "B", "w", "al", 0, 0⟩])
    ∧ ((2 : ℚ) < 5/2) := by
  constructor
  · have ht : jsTrunc ((5 : ℚ)/2) = 2 := by
      unfold jsTrunc
      rw [if_pos (by norm_num), rat_floor_eq,
        show ((5 : ℚ)/2) = ((5 : ℤ) : ℚ)/((2 : ℕ) : ℚ) by norm_num,
        Rat.floor_intCast_div_natCast]
      decide
    have h : jsParseAmount (some ((5 : ℚ)/2)) = 2 := by
      rw [jsParseAmount_of_pos (by omega), ht]
    rw [dbSpend_found [⟨"i", "B", "w", "al", 2, 0⟩] "i" (some (5/2)) ⟨"i", "B", "w", "al", 2, 0⟩ (by omega) rfl, h]
    norm_num
    decide
  · norm_num

/-- C2 amended: restricted to positive integer amounts in the DB variant,
spend fails with the insufficient-funds error exactly when the balance is
smaller than the amount, leaves the store untouched in that case (the route
answers before any write), and otherwise deducts exactly the amount; in the
float variant the same holds for every positive finite amount, with the new
balance being the rounded difference.  Fractional amounts in the DB variant
are truncated by parseInt before the check, as the counterexample shows. -/
theorem c2_spend_exact :
    (∀ (st : List DbWallet) (id : String) (a : ℤ) (w : DbWallet),
        0 < a → st.find? (fun v => v.id == id) = some w →
        ((w.balance < a →
            dbSpend st id (some (a : ℚ)) = .error .insufficient)
         ∧ (a ≤ w.balance →
            dbSpend st id (some (a : ℚ)) =
              .ok ({ w with balance := w.balance - a },
                replaceFirst (fun v => v.id == id)
                  { w with balance := w.balance - a } st))))
    ∧ (∀ (st : List MemWallet) (address : String) (a : ℚ) (now : Nat)
        (w : MemWallet), 0 < a → address ≠ "" →
        st.find? (fun v => v.address == address) = some w →
        ((w.balance < a →
            memSpend st address (some a) now = .error .insufficient)
         ∧ (a ≤ w.balance →
            memSpend st address (some a) now =
              .ok ({ w with balance := round3 (w.balance - a), updatedAt := now },
                replaceFirst (fun v => v.address == address)
                  { w with balance := round3 (w.balance - a), updatedAt := now } st)))) := by
  constructor
  · intro st id a w ha hfind
    have hp := jsParseAmount_intCast a ha
    have hz : ¬ jsParseAmount (some ((a : ℤ) : ℚ)) = 0 := by omega
    constructor
    · intro hlt
      rw [dbSpend_found st id _ w hz hfind, hp, if_pos hlt]
    · intro hge
      rw [dbSpend_found st id _ w hz hfind, hp, if_neg (not_lt.mpr hge)]
  · intro st address a now w ha haddr hfind
    constructor
    · intro hlt
      rw [memSpend_found st address a now w haddr hfind, if_pos hlt]
    · intro hge
      rw [memSpend_found st address a now w haddr hfind,
        if_neg (not_lt.mpr hge)]

/-- C2 witness: a concrete successful integer spend and a concrete
insufficient-funds rejection through the amended theorem. -/
theorem c2_spend_exact_witness :
    dbSpend [(⟨"i", "B", "w", "al", 5, 0⟩ : DbWallet)] "i"
        (some ((2 : ℤ) : ℚ)) =
      .ok (⟨"i", "B", "w", "al", 3, 0⟩, [⟨"i", "B", "w", "al", 3, 0⟩])
    ∧ memSpend [(⟨"m", "A", "n", 1, 0, 0⟩ : MemWallet)] "A" (some 2) 7 =
      .error .insufficient := by
  constructor
  · have h := (c2_spend_exact.1 [(⟨"i", "B", "w", "al", 5, 0⟩ : DbWallet)]
      "i" 2 ⟨"i", "B", "w", "al", 5, 0⟩ (by norm_num) rfl).2 (by decide)
    rw [h]
    decide
  · exact (c2_spend_exact.2 [(⟨"m", "A", "n", 1, 0, 0⟩ : MemWallet)] "A" 2 7
      ⟨"m", "A", "n", 1, 0, 0⟩ (by norm_num) (by decide) rfl).1 (by norm_num)

set_option maxRecDepth 20000 in
/-- C8 counterexample: the in-memory variant applies no length cap, so a
post whose trimmed text has 501 characters is stored with all 501
characters, exceeding the documented 500-character cap the claim
asserts. -/
theorem c8_no_cap_counterexample :
    ∃ p st2, memPostWall ⟨[], 1⟩ (String.mk (List.replicate 501 'a'))
        "nick" 0 = .ok (p, st2)
      ∧ p.text.data.length = 501 ∧ ¬ p.text.data.length ≤ 500 := by
  refine ⟨⟨"1", String.mk (List.replicate 501 'a'), "nick", "just now", 0⟩,
    ⟨[⟨"1", String.mk (List.replicate 501 'a'), "nick", "just now", 0⟩], 2⟩,
    by decide, by decide, by decide⟩

/-- C8 amended: both variants fail with the empty-text error exactly when
the trimmed text is empty and store nothing in that case; on success the DB
variant stores the trimmed text capped at 500 and the trimmed nick capped at
40 with the sentinel substituted when blank, while the in-memory variant
stores the trimmed text and sentinel-defaulted trimmed nick with no length
cap; in both, a blank or whitespace-only nick becomes the sentinel
someone. -/
theorem c8_post_validation :
    (∀ (st : List DbPost) (t n newId : String) (now : Nat),
        (jsTrim t = "" → dbPostWall st t n newId now = .error .emptyText)
        ∧ (jsTrim t ≠ "" → dbPostWall st t n newId now =
            .ok ((⟨newId, jsSlice (jsTrim t) 500, jsSlice (jsOr (jsTrim n) "someone") 40, now, 0⟩ : DbPost),
              st ++ [⟨newId, jsSlice (jsTrim t) 500, jsSlice (jsOr (jsTrim n) "someone") 40, now, 0⟩])))
    ∧ (∀ (st : MemWallState) (t n : String) (now : Nat),
        (jsTrim t = "" → memPostWall st t n now = .error .emptyText)
        ∧ (jsTrim t ≠ "" → memPostWall st t n now =
            .ok ((⟨natToString st.nextWallId, jsTrim t, jsOr (jsTrim (jsOr n "someone")) "someone", "just now", now⟩ : MemPost),
              ⟨st.posts ++ [⟨natToString st.nextWallId, jsTrim t, jsOr (jsTrim (jsOr n "someone")) "someone", "just now", now⟩], st.nextWallId + 1⟩)))
    ∧ (∀ n : String, jsTrim n = "" →
        jsSlice (jsOr (jsTrim n) "someone") 40 = "someone"
        ∧ jsOr (jsTrim (jsOr n "someone")) "someone" = "someone") := by
  refine ⟨?_, ?_, ?_⟩
  · intro st t n newId now
    constructor
    · intro ht
      simp only [dbPostWall]
      rw [if_pos (by rw [ht]; rfl)]
    · intro ht
      exact dbPostWall_ok st t n newId now
        (fun hc => ht (jsSlice_eq_empty hc (by norm_num)))
  · intro st t n now
    constructor
    · intro ht
      simp only [memPostWall]
      rw [if_pos ht]
    · intro ht
      exact memPostWall_ok st t n now ht
  · intro n hn
    constructor
    · rw [hn]
      decide
    · by_cases h0 : n = ""
      · subst h0
        decide
      · simp only [jsOr]
        rw [if_neg h0, hn]
        rfl

/-- C8 witness: a concrete post with text hello and absent nick in the DB
variant, and with text hi and whitespace nick in the in-memory variant,
both stored with the sentinel, through the theorem. -/
theorem c8_post_validation_witness :
    dbPostWall [] "hello" "" "w1" 0 =
      .ok (⟨"w1", "hello", "someone", 0, 0⟩,
        [⟨"w1", "hello", "someone", 0, 0⟩])
    ∧ memPostWall ⟨[], 1⟩ "hi" " " 4 =
      .ok (⟨"1", "hi", "someone", "just now", 4⟩,
        ⟨[⟨"1", "hi", "someone", "just now", 4⟩], 2⟩) := by
  constructor
  · rw [(c8_post_validation.1 [] "hello" "" "w1" 0).2 (by decide)]
    decide
  · rw [(c8_post_validation.2.1 ⟨[], 1⟩ "hi" " " 4).2 (by decide)]
    decide

/-- C9: the derived address is a pure function of the passphrase.  In the DB
variant every successful upsert returns a row whose address is exactly
addrFromPhrase of the trimmed mnemonic, independent of the table, nickname,
id and time; in the in-memory variant, on any well-formed store the returned
address is exactly the one derived from the mnemonic digest, the call
preserves well-formedness, and two calls with the same passphrase in any two
well-formed stores, with any nicknames and at any times, return the same
address. -/
theorem c9_address_deterministic :
    (∀ (sha : String → String) (st : List DbWallet) (n m newId : String)
        (now : Nat) (w1 : DbWallet) (st1 : List DbWallet),
        walletUpsert sha st n m newId now = .ok (w1, st1) →
        w1.address = addrFromPhrase sha (jsTrim m))
    ∧ (∀ (sha : String → String) (st : List MemWallet) (n p : String)
        (now : Nat) (w1 : MemWallet) (st1 : List MemWallet),
        memWF st → getOrCreateWallet sha st n p now = some (w1, st1) →
        w1.address = deriveAddressFromHash (hashMnemonic sha (jsTrim p))
          ∧ memWF st1)
    ∧ (∀ (sha : String → String) (sa sb : List MemWallet) (na nb p : String)
        (ta tb : Nat) (wa wb : MemWallet) (sa1 sb1 : List MemWallet),
        memWF sa → memWF sb →
        getOrCreateWallet sha sa na p ta = some (wa, sa1) →
        getOrCreateWallet sha sb nb p tb = some (wb, sb1) →
        wa.address = wb.address) := by
  have hmem : ∀ (sha : String → String) (st : List MemWallet)
      (n p : String) (now : Nat) (w1 : MemWallet) (st1 : List MemWallet),
      memWF st → getOrCreateWallet sha st n p now = some (w1, st1) →
      w1.address = deriveAddressFromHash (hashMnemonic sha (jsTrim p))
        ∧ memWF st1 := by
    intro sha st n p now w1 st1 hwf h1
    by_cases hmn : jsTrim p = ""
    · rw [getOrCreateWallet_empty sha st n p now hmn] at h1
      exact absurd h1 (by simp)
    · rcases hfind : st.find?
          (fun v => v.id == hashMnemonic sha (jsTrim p)) with _ | w0
      · rw [getOrCreateWallet_new sha st n p now hmn hfind] at h1
        simp only [Option.some.injEq, Prod.mk.injEq] at h1
        obtain ⟨hw1, hst1⟩ := h1
        subst hst1
        subst hw1
        refine ⟨rfl, ?_⟩
        intro w hw
        rcases List.mem_append.mp hw with h2 | h2
        · exact hwf w h2
        · rw [List.mem_singleton.mp h2]
      · rw [getOrCreateWallet_found sha st n p now w0 hmn hfind] at h1
        simp only [Option.some.injEq, Prod.mk.injEq] at h1
        obtain ⟨hw1, hst1⟩ := h1
        subst hst1
        subst hw1
        have hid : w0.id = hashMnemonic sha (jsTrim p) := by
          simpa using List.find?_some hfind
        have haddr := hwf w0 (List.mem_of_find?_eq_some hfind)
        constructor
        · show w0.address = _
          rw [haddr, hid]
        · intro w hw
          rcases mem_replaceFirst hw with h2 | h2
          · rw [h2]
            exact haddr
          · exact hwf w h2
  refine ⟨?_, hmem, ?_⟩
  · intro sha st n m newId now w1 st1 h1
    by_cases hval : jsSlice (jsTrim n) 64 = ""
        ∨ (splitWords (jsTrim m)).length < 12
    · rw [walletUpsert_invalid sha st n m newId now hval] at h1
      exact absurd h1 (by simp)
    · rcases hfind : st.find?
          (fun v => v.address == addrFromPhrase sha (jsTrim m)) with _ | w0
      · rw [walletUpsert_new sha st n m newId now hval hfind] at h1
        simp only [Except.ok.injEq, Prod.mk.injEq] at h1
        obtain ⟨hw1, hst1⟩ := h1
        subst hw1
        rfl
      · rw [walletUpsert_found sha st n m newId now w0 hval hfind] at h1
        simp only [Except.ok.injEq, Prod.mk.injEq] at h1
        obtain ⟨hw1, hst1⟩ := h1
        subst hw1
        show w0.address = _
        simpa using List.find?_some hfind
  · intro sha sa sb na nb p ta tb wa wb sa1 sb1 hwfa hwfb ha hb
    rw [(hmem sha sa na p ta wa sa1 hwfa ha).1,
      (hmem sha sb nb p tb wb sb1 hwfb hb).1]

/-- C9 witness: concrete wallet creations from the same passphrase in two
different stores with different nicknames and times give the derived
address both times, through the theorem. -/
theorem c9_address_deterministic_witness :
    (DbWallet.mk "i1" "PW-A B C D E " "a b c d e f g h i j k l" "alice"
        0 0).address
      = addrFromPhrase (fun s => s) (jsTrim "a b c d e f g h i j k l")
    ∧ ((MemWallet.mk "m" "MWC-M000-0000-0000-0000" "n" 1 0 0).address
        = deriveAddressFromHash (hashMnemonic (fun s => s) (jsTrim "m"))
      ∧ memWF [MemWallet.mk "m" "MWC-M000-0000-0000-0000" "n" 1 0 0])
    ∧ (MemWallet.mk "m" "MWC-M000-0000-0000-0000" "alice" 1 0 0).address
      = (MemWallet.mk "m" "MWC-M000-0000-0000-0000" "bob" 1 3 3).address :=
  ⟨c9_address_deterministic.1 (fun s => s) [] "alice"
      "a b c d e f g h i j k l" "i1" 0
      ⟨"i1", "PW-A B C D E ", "a b c d e f g h i j k l", "alice", 0, 0⟩
      [⟨"i1", "PW-A B C D E ", "a b c d e f g h i j k l", "alice", 0, 0⟩]
      rfl,
    c9_address_deterministic.2.1 (fun s => s) [] "n" "m" 0
      ⟨"m", "MWC-M000-0000-0000-0000", "n", 1, 0, 0⟩
      [⟨"m", "MWC-M000-0000-0000-0000", "n", 1, 0, 0⟩] (by decide) rfl,
    c9_address_deterministic.2.2 (fun s => s) [] [] "alice" "bob" "m" 0 3
      ⟨"m", "MWC-M000-0000-0000-0000", "alice", 1, 0, 0⟩
      ⟨"m", "MWC-M000-0000-0000-0000", "bob", 1, 3, 3⟩
      [⟨"m", "MWC-M000-0000-0000-0000", "alice", 1, 0, 0⟩]
      [⟨"m", "MWC-M000-0000-0000-0000", "bob", 1, 3, 3⟩]
      (by decide) (by decide) rfl rfl⟩

/-- C5 counterexample: two float-variant failures of the round trip.  For
an amount that is not a multiple of the rounding grid: from a wallet with
balance 0, earning 0.8004 rounds the balance to 0.8, and the subsequent
spend of 0.8004 is rejected as insufficient, leaving the balance at 0.8
instead of the original 0.  And for a negative on-grid balance, reachable
through the unvalidated earn route: from balance minus 0.5, earning 0.3
leaves minus 0.2, and the matching spend of 0.3 is rejected as
insufficient, leaving minus 0.2 instead of the original minus 0.5. -/
theorem c5_round_trip_counterexample :
    (memEarn [⟨"m", "A", "n", 0, 0, 0⟩] "A" (some (2001/2500)) 1 =
      .ok (⟨"m", "A", "n", 4/5, 0, 1⟩, [⟨"m", "A", "n", 4/5, 0, 1⟩])
    ∧ memSpend [⟨"m", "A", "n", 4/5, 0, 1⟩] "A" (some (2001/2500)) 2 =
      .error .insufficient
    ∧ (4/5 : ℚ) ≠ 0)
    ∧ (memEarn [⟨"m", "A", "n", -(1/2), 0, 0⟩] "A" (some (3/10)) 1 =
      .ok (⟨"m", "A", "n", -(1/5), 0, 1⟩, [⟨"m", "A", "n", -(1/5), 0, 1⟩])
    ∧ memSpend [⟨"m", "A", "n", -(1/5), 0, 1⟩] "A" (some (3/10)) 2 =
      .error .insufficient
    ∧ (-(1/5) : ℚ) ≠ -(1/2)) := by
  refine ⟨⟨?_, ?_, by norm_num⟩, ⟨?_, ?_, by norm_num⟩⟩
  · have h0 : round3 ((0 : ℚ) + 2001/2500) = 4/5 := by
      rw [round3_eval ((0 : ℚ) + 2001/2500) 800 (by norm_num) (by norm_num)]
      norm_num
    rw [← h0]
    rfl
  · rw [memSpend_found [⟨"m", "A", "n", 4/5, 0, 1⟩] "A" (2001/2500) 2
      ⟨"m", "A", "n", 4/5, 0, 1⟩ (by decide) rfl,
      if_pos (show ((4 : ℚ)/5) < 2001/2500 by norm_num)]
  · have h0 : round3 ((-(1/2) : ℚ) + 3/10) = -(1/5) := by
      rw [round3_eval ((-(1/2) : ℚ) + 3/10) (-200) (by norm_num)
        (by norm_num)]
      norm_num
    rw [← h0]
    rfl
  · rw [memSpend_found [⟨"m", "A", "n", -(1/5), 0, 1⟩] "A" (3/10) 2
      ⟨"m", "A", "n", -(1/5), 0, 1⟩ (by decide) rfl,
      if_pos (show (-(1/5) : ℚ) < 3/10 by norm_num)]

/-- C5 amended: the award-then-spend round trip restores the original
balance in the integer variant for every positive integer amount on a
non-negative balance, and in the float variant whenever the balance is a
non-negative multiple and the amount a positive multiple of the rounding
grid of one thousandth; for off-grid amounts, and likewise for negative
balances (reachable through the unvalidated earn route), the float variant
can fail the round trip, as the counterexample shows. -/
theorem c5_round_trip :
    (∀ (st : List DbWallet) (id : String) (a : ℤ) (w : DbWallet),
        0 < a → 0 ≤ w.balance → st.find? (fun v => v.id == id) = some w →
        ∃ w1 st1 w2 st2, dbAward st id (some (a : ℚ)) = .ok (w1, st1)
          ∧ dbSpend st1 id (some (a : ℚ)) = .ok (w2, st2)
          ∧ w2.balance = w.balance)
    ∧ (∀ (st : List MemWallet) (address : String) (k m : ℕ)
        (now1 now2 : Nat) (w : MemWallet),
        address ≠ "" → 0 < m →
        st.find? (fun v => v.address == address) = some w →
        w.balance = (k : ℚ)/1000 →
        ∃ w1 st1 w2 st2,
          memEarn st address (some ((m : ℚ)/1000)) now1 = .ok (w1, st1)
          ∧ memSpend st1 address (some ((m : ℚ)/1000)) now2 = .ok (w2, st2)
          ∧ w2.balance = w.balance) := by
  constructor
  · intro st id a w ha hb hfind
    have hp := jsParseAmount_intCast a ha
    have hz : ¬ jsParseAmount (some ((a : ℤ) : ℚ)) = 0 := by omega
    have hfind1 := find?_replaceFirst
      (a := { w with balance := w.balance + jsParseAmount (some ((a : ℤ) : ℚ)) })
      hfind (by simpa using List.find?_some hfind)
    have hspend := dbSpend_found
      (replaceFirst (fun v => v.id == id)
        { w with balance := w.balance + jsParseAmount (some ((a : ℤ) : ℚ)) }
        st)
      id (some ((a : ℤ) : ℚ))
      { w with balance := w.balance + jsParseAmount (some ((a : ℤ) : ℚ)) }
      hz hfind1
    rw [if_neg (show ¬ (w.balance + jsParseAmount (some ((a : ℤ) : ℚ))
        < jsParseAmount (some ((a : ℤ) : ℚ))) from by rw [hp]; omega)]
      at hspend
    exact ⟨_, _, _, _, dbAward_found st id _ w hz hfind, hspend,
      show w.balance + jsParseAmount (some ((a : ℤ) : ℚ))
          - jsParseAmount (some ((a : ℤ) : ℚ)) = w.balance from by
        rw [hp]; omega⟩
  · intro st address k m now1 now2 w haddr hm hfind hbal
    have hsum : w.balance + (m : ℚ)/1000 = (((k + m : ℕ) : ℤ) : ℚ)/1000 := by
      rw [hbal]
      push_cast
      ring
    have hr1 : round3 (w.balance + (m : ℚ)/1000)
        = (((k + m : ℕ) : ℤ) : ℚ)/1000 := by
      rw [hsum, round3_grid]
    have hfind1 := find?_replaceFirst
      (a := { w with balance := round3 (w.balance + (m : ℚ)/1000), updatedAt := now1 })
      hfind (by simpa using List.find?_some hfind)
    have hspend := memSpend_found
      (replaceFirst (fun v => v.address == address)
        { w with balance := round3 (w.balance + (m : ℚ)/1000), updatedAt := now1 } st)
      address ((m : ℚ)/1000) now2
      { w with balance := round3 (w.balance + (m : ℚ)/1000), updatedAt := now1 }
      haddr hfind1
    have hnotlt : ¬ (round3 (w.balance + (m : ℚ)/1000) < (m : ℚ)/1000) := by
      rw [hr1, not_lt]
      gcongr
      exact_mod_cast Nat.le_add_left m k
    rw [if_neg hnotlt] at hspend
    have hfinal : round3 (round3 (w.balance + (m : ℚ)/1000) - (m : ℚ)/1000)
        = w.balance := by
      rw [hr1]
      have hd : (((k + m : ℕ) : ℤ) : ℚ)/1000 - (m : ℚ)/1000
          = ((k : ℤ) : ℚ)/1000 := by
        push_cast
        ring
      rw [hd, round3_grid, hbal]
      push_cast
      ring
    exact ⟨_, _, _, _,
      memEarn_found st address ((m : ℚ)/1000) now1 w haddr hfind, hspend,
      hfinal⟩

/-- C5 witness: a concrete integer round trip (award 2 then spend 2 from
balance 5 gives balance 5 back) and a concrete grid-aligned float round
trip (earn 0.5 then spend 0.5 from balance 1), through the theorem. -/
theorem c5_round_trip_witness :
    (∃ w1 st1 w2 st2,
        dbAward [(⟨"i", "B", "w", "al", 5, 0⟩ : DbWallet)] "i"
          (some ((2 : ℤ) : ℚ)) = .ok (w1, st1)
        ∧ dbSpend st1 "i" (some ((2 : ℤ) : ℚ)) = .ok (w2, st2)
        ∧ w2.balance = (DbWallet.mk "i" "B" "w" "al" 5 0).balance)
    ∧ (∃ w1 st1 w2 st2,
        memEarn [(⟨"m", "A", "n", 1, 0, 0⟩ : MemWallet)] "A"
          (some ((500 : ℚ)/1000)) 1 = .ok (w1, st1)
        ∧ memSpend st1 "A" (some ((500 : ℚ)/1000)) 2 = .ok (w2, st2)
        ∧ w2.balance = (MemWallet.mk "m" "A" "n" 1 0 0).balance) :=
  ⟨c5_round_trip.1 [⟨"i", "B", "w", "al", 5, 0⟩] "i" 2
      ⟨"i", "B", "w", "al", 5, 0⟩ (by norm_num) (by decide) rfl,
    c5_round_trip.2 [⟨"m", "A", "n", 1, 0, 0⟩] "A" 1000 500 1 2
      ⟨"m", "A", "n", 1, 0, 0⟩ (by decide) (by norm_num) rfl
      (by norm_num)⟩

end PW
